import Mathlib

/-!
Verification of the embedding-cache and similarity-retrieval core of the
`ses-bot` repository (`SesameChat.py` and `SesameChatAPI.py`).

Shallow embedding conventions:

* Embedding vectors are `List ℚ` (exact rationals stand in for the numeric
  vectors of the source).
* An embedding matrix (`torch` 2-D tensor) is a `List (List ℚ)`.
* The external embedding service (`ollama.embeddings`) is an oracle
  parameter.  For the corpus path the source checks `"embedding" in response`,
  so the oracle has type `String → Option (List ℚ)`; for the query path the
  source indexes `response["embedding"]` unconditionally, so the oracle has
  type `String → List ℚ`.
* The chat model (`ollama.chat`) is an oracle `List Message → Option String`
  returning the content of `response['message']['content']` when both keys
  are present, and `none` otherwise.
* File-system state relevant to the cache (`vault.txt`,
  `vault_embeddings.pt`, `vault_checksum.txt`) is the record `FS`; the MD5
  digest function is an oracle parameter `md5fn : String → String` applied to
  the raw bytes of the vault file.  Opening a missing file raises, which is
  modelled by `Except Unit`.
* Calls to the external services and writes to disk are returned as explicit
  traces so that "does not call the service" and "writes the matrix before
  the checksum" are statable.
-/

/-- Dot product of two rational vectors, truncating at the shorter length
(the source relies on both having the embedding dimension `D`). -/
def dotp (xs ys : List ℚ) : ℚ :=
  (List.zipWith (fun a b => a * b) xs ys).sum

/-- Order-faithful rational surrogate for the cosine similarity computed by
`torch.cosine_similarity(query, row)`: writing `a = dotp q v` and
`A = dotp v v`, the value is `sgn(a) * a^2 / A`, which equals
`cos(q,v)^2 * sgn(cos) * |q|^2` and is therefore a strictly increasing
function of the true cosine similarity for a fixed nonzero query.  A zero
row (`A = 0`) gets score `0`, matching the `eps`-clamped denominator torch
uses.  The bridge to the real-valued cosine is proved below
(`simScore_le_iff`). -/
def simScore (q v : List ℚ) : ℚ :=
  if dotp v v = 0 then 0
  else (if dotp q v < 0 then -1 else 1) * dotp q v ^ 2 / dotp v v

/-- The true cosine similarity `dot(q,v) / (|q| * |v|)` of §4.4 of the spec,
as a real number. -/
noncomputable def cosineSim (q v : List ℚ) : ℝ :=
  ((dotp q v : ℚ) : ℝ) /
    (Real.sqrt ((dotp q q : ℚ) : ℝ) * Real.sqrt ((dotp v v : ℚ) : ℝ))

/-- Model of `tensor.nelement()`: total number of scalar entries of the matrix. -/
def nelement (m : List (List ℚ)) : Nat :=
  (m.map List.length).sum

/-- Whitespace characters removed by Python `str.strip()` (ASCII part). -/
def isPyWhitespace (c : Char) : Bool :=
  c = ' ' || c = '\t' || c = '\n' || c = '\r' || c = '\x0b' || c = '\x0c'

/-- Drop leading whitespace from a character list. -/
def dropLeadingWS : List Char → List Char
  | [] => []
  | c :: rest => if isPyWhitespace c then dropLeadingWS rest else c :: rest

/-- Python `str.strip()`: remove leading and trailing whitespace. -/
def pyStrip (s : String) : String :=
  String.mk ((dropLeadingWS (dropLeadingWS s.data).reverse).reverse)

/-- Model of `torch.topk(cos_scores, k)[1].tolist()`, determinised: the indices of the
`k` largest scores in descending score order, ties broken by ascending
original index (a stable sort of the index range by descending score). -/
def topkIdx (scores : List ℚ) (k : Nat) : List Nat :=
  (List.insertionSort (fun i j => scores.getD j 0 ≤ scores.getD i 0)
    (List.range scores.length)).take k

/-- Model of `get_relevant_context(rewritten_input, vault_embeddings,
vault_content, top_k)` of both source files (they differ only in printing).  Returns the
list of selected context strings together with the trace of prompts sent to
the external embedding service.  The source indexes `vault_content[idx]`;
the model totalises that lookup with a default, which is only exercised when
the matrix has more rows than the corpus. -/
def get_relevant_context (embed : String → List ℚ) (rewritten_input : String)
    (vault_embeddings : List (List ℚ)) (vault_content : List String)
    (top_k : Nat) : List String × List String :=
  if nelement vault_embeddings = 0 then ([], [])
  else
    let input_embedding := embed rewritten_input
    let cos_scores := vault_embeddings.map (fun v => simScore input_embedding v)
    let k := min top_k cos_scores.length
    let top_indices := topkIdx cos_scores k
    (top_indices.map (fun idx => pyStrip (vault_content.getD idx "")),
     [rewritten_input])

/-- One entry of `conversation_history` / `messages`: a Python dict
`{"role": ..., "content": ...}`. -/
structure Message where
  role : String
  content : String
deriving DecidableEq, Repr

/-- Result of `ollama_chat`: the returned reply, the updated
`conversation_history`, and the traces of embedding-service prompts and
chat-model requests issued during the call. -/
structure ChatOut where
  reply : String
  history : List Message
  embedCalls : List String
  chatCalls : List (List Message)
deriving DecidableEq, Repr

/-- The context-augmented user input built by `ollama_chat`: when context was
retrieved, the context strings joined with `sep`, then `"\n\n"`, then the raw
input; otherwise the raw input.  `SesameChat.py` joins with `"\n"`,
`SesameChatAPI.py` with `"\n\n"`. -/
def augmented_input (sep : String) (embed : String → List ℚ)
    (user_input : String) (vault_embeddings : List (List ℚ))
    (vault_content : List String) : String :=
  let relevant_context :=
    (get_relevant_context embed user_input vault_embeddings vault_content 3).1
  if relevant_context = [] then user_input
  else String.intercalate sep relevant_context ++ "\n\n" ++ user_input

/-- Common body of `ollama_chat` in the two source files, parameterised by
the separator used to join the retrieved context strings. -/
def ollama_chat_core (sep : String) (embed : String → List ℚ)
    (chatResp : List Message → Option String) (user_input : String)
    (system_message : String) (vault_embeddings : List (List ℚ))
    (vault_content : List String) (conversation_history : List Message) :
    ChatOut :=
  let rc := get_relevant_context embed user_input vault_embeddings vault_content 3
  let user_input_with_context :=
    augmented_input sep embed user_input vault_embeddings vault_content
  let history1 := conversation_history ++ [⟨"user", user_input_with_context⟩]
  let messages := ⟨"system", system_message⟩ :: history1
  let response := chatResp messages
  let content :=
    match response with
    | some c => c
    | none => "No response content."
  ⟨content, history1 ++ [⟨"assistant", content⟩], rc.2, [messages]⟩

/-- Model of `ollama_chat` of `SesameChatAPI.py` (context joined with
`"\n\n"`). -/
def ollama_chat (embed : String → List ℚ)
    (chatResp : List Message → Option String) (user_input : String)
    (system_message : String) (vault_embeddings : List (List ℚ))
    (vault_content : List String) (conversation_history : List Message) :
    ChatOut :=
  ollama_chat_core "\n\n" embed chatResp user_input system_message
    vault_embeddings vault_content conversation_history

/-- Model of `ollama_chat` of `SesameChat.py` (context joined with `"\n"`;
the extra
console printing of that file has no observable effect modelled here). -/
def ollama_chat_cli (embed : String → List ℚ)
    (chatResp : List Message → Option String) (user_input : String)
    (system_message : String) (vault_embeddings : List (List ℚ))
    (vault_content : List String) (conversation_history : List Message) :
    ChatOut :=
  ollama_chat_core "\n" embed chatResp user_input system_message
    vault_embeddings vault_content conversation_history

/-- Result of the `/chat` endpoint of `SesameChatAPI.py`: HTTP status, the
reply content (`none` on the error response), the conversation history after
the request, and the traces of embedding-service and chat-model calls. -/
structure EndpointOut where
  status : Nat
  reply : Option String
  history : List Message
  embedCalls : List String
  chatCalls : List (List Message)
deriving DecidableEq, Repr

/-- The `/chat` endpoint (`chat()` in `SesameChatAPI.py`).
`userInputField` is `data.get("user_input", ...)`: `none` when the JSON body
has no `"user_input"` key, `some s` when it maps it to string `s`; the
module-level `system_message` constant is passed as a parameter. -/
def chat_endpoint (embed : String → List ℚ)
    (chatResp : List Message → Option String) (system_message : String)
    (vault_embeddings : List (List ℚ)) (vault_content : List String)
    (conversation_history : List Message) (userInputField : Option String) :
    EndpointOut :=
  let user_input := userInputField.getD ""
  if user_input = "" then
    ⟨400, none, conversation_history, [], []⟩
  else
    let out := ollama_chat embed chatResp user_input system_message
      vault_embeddings vault_content conversation_history
    ⟨200, some out.reply, out.history, out.embedCalls, out.chatCalls⟩

/-- File-system state of the three files the cache logic touches:
`vault.txt` (raw bytes, `none` = missing), `vault_checksum.txt` (text
contents, `none` = missing) and `vault_embeddings.pt` (the persisted matrix,
`none` = missing). -/
structure FS where
  vaultFile : Option String
  checksumFile : Option String
  embeddingsFile : Option (List (List ℚ))
deriving DecidableEq, Repr

/-- One durable write performed by `load_or_generate_embeddings`:
`torch.save(...)` of the matrix, or writing the checksum file. -/
inductive WriteEvent where
  | writeEmbeddings : List (List ℚ) → WriteEvent
  | writeChecksum : String → WriteEvent
deriving DecidableEq, Repr

/-- Result of `load_or_generate_embeddings`: the returned pair
(matrix, checksum) plus the trace of embedding-service prompts and the
ordered trace of durable writes performed. -/
structure LoadResult where
  embeddings : List (List ℚ)
  checksum : String
  embedCalls : List String
  writes : List WriteEvent
deriving DecidableEq, Repr

/-- The `saved_checksum` local of `load_or_generate_embeddings`: the stripped
contents of `vault_checksum.txt`, or `""` when that file does not exist. -/
def saved_checksum (fs : FS) : String :=
  match fs.checksumFile with
  | some s => pyStrip s
  | none => ""

/-- Model of `compute_md5(filepath)` applied to the vault file: `open` raises
(`IOError`) when the file is missing; otherwise the MD5 hex digest of the
byte content, modelled by the digest oracle `md5fn`. -/
def compute_md5 (md5fn : String → String) (vaultFile : Option String) :
    Except Unit String :=
  match vaultFile with
  | none => Except.error ()
  | some bytes => Except.ok (md5fn bytes)

/-- Model of `load_or_generate_embeddings(vault_content)` of both source files (they
differ only in printing).  Reads the saved checksum (stripped; `""` when the
checksum file is missing), computes the current checksum of `vault.txt`,
takes the cached fast path when they are equal and the embeddings file
exists, and otherwise regenerates: one embedding-service call per corpus
entry in order, keeping only entries whose response contains an
`"embedding"` key, then writes the matrix and afterwards the checksum. -/
def load_or_generate_embeddings (md5fn : String → String)
    (embed : String → Option (List ℚ)) (fs : FS)
    (vault_content : List String) : Except Unit LoadResult :=
  match compute_md5 md5fn fs.vaultFile with
  | Except.error e => Except.error e
  | Except.ok current_checksum =>
    if saved_checksum fs = current_checksum ∧ fs.embeddingsFile.isSome then
      Except.ok ⟨fs.embeddingsFile.getD [], current_checksum, [], []⟩
    else
      let vault_embeddings := vault_content.filterMap embed
      Except.ok ⟨vault_embeddings, current_checksum, vault_content,
        [WriteEvent.writeEmbeddings vault_embeddings,
         WriteEvent.writeChecksum current_checksum]⟩

/-- Python `file.readlines()`: split into lines, each keeping its trailing
newline character. -/
def readlinesAux : List Char → List Char → List String
  | [], [] => []
  | [], acc => [String.mk acc.reverse]
  | c :: rest, acc =>
    if c = '\n' then
      String.mk (acc.reverse ++ ['\n']) :: readlinesAux rest []
    else
      readlinesAux rest (c :: acc)

/-- Python `file.readlines()` on a whole file content. -/
def pyReadlines (s : String) : List String :=
  readlinesAux s.data []

/-- Module initialisation of both source files: `vault_content` is the lines
of `vault.txt` when it exists and `[]` otherwise, then
`load_or_generate_embeddings(vault_content)` runs; an exception it raises
propagates and aborts start-up. -/
def startup (md5fn : String → String) (embed : String → Option (List ℚ))
    (fs : FS) : Except Unit (List String × LoadResult) :=
  let vault_content :=
    match fs.vaultFile with
    | some bytes => pyReadlines bytes
    | none => []
  match load_or_generate_embeddings md5fn embed fs vault_content with
  | Except.error e => Except.error e
  | Except.ok r => Except.ok (vault_content, r)

/-! ### Bridge from the rational score surrogate to real cosine similarity -/

/-- The strictly monotone signed square `x * |x|`, through which `simScore`
is related to `cosineSim`. -/
def mulAbs (x : ℝ) : ℝ := x * |x|

lemma mulAbs_strictMono : StrictMono mulAbs := by
  intro x y hxy
  unfold mulAbs
  rcases le_or_lt 0 x with hx | hx
  · rw [abs_of_nonneg hx, abs_of_nonneg (hx.trans hxy.le)]
    nlinarith
  · rcases le_or_lt 0 y with hy | hy
    · rw [abs_of_neg hx, abs_of_nonneg hy]
      nlinarith
    · rw [abs_of_neg hx, abs_of_neg hy]
      nlinarith

lemma mulAbs_div_sqrt (a A : ℝ) (hA : 0 < A) :
    mulAbs (a / Real.sqrt A) = mulAbs a / A := by
  unfold mulAbs
  rw [abs_div, abs_of_nonneg (Real.sqrt_nonneg A), div_mul_div_comm,
    Real.mul_self_sqrt hA.le]

lemma castSimScore (q v : List ℚ) (hv : 0 < dotp v v) :
    ((simScore q v : ℚ) : ℝ) = mulAbs ((dotp q v : ℚ) : ℝ) / ((dotp v v : ℚ) : ℝ) := by
  unfold simScore mulAbs
  rw [if_neg (ne_of_gt hv)]
  rcases lt_or_le (dotp q v) 0 with h | h
  · rw [if_pos h, abs_of_neg (by exact_mod_cast h : ((dotp q v : ℚ) : ℝ) < 0)]
    push_cast
    ring
  · rw [if_neg (not_lt.mpr h), abs_of_nonneg (by exact_mod_cast h : (0 : ℝ) ≤ _)]
    push_cast
    ring

lemma cosine_le_core (a b A B Q : ℝ) (hA : 0 < A) (hB : 0 < B) (hQ : 0 < Q) :
    mulAbs a / A ≤ mulAbs b / B ↔
      a / (Real.sqrt Q * Real.sqrt A) ≤ b / (Real.sqrt Q * Real.sqrt B) := by
  have hsQ := Real.sqrt_pos.mpr hQ
  rw [← mulAbs_div_sqrt a A hA, ← mulAbs_div_sqrt b B hB, mulAbs_strictMono.le_iff_le,
    mul_comm (Real.sqrt Q), mul_comm (Real.sqrt Q), ← div_div, ← div_div]
  exact (div_le_div_iff_of_pos_right hsQ).symm

/-- Order-faithfulness of `simScore` for `cosineSim`: for a nonzero query and
nonzero rows, comparing the rational surrogate scores is the same as
comparing the true real cosine similarities. -/
lemma simScore_le_iff (q v w : List ℚ) (hq : 0 < dotp q q) (hv : 0 < dotp v v)
    (hw : 0 < dotp w w) :
    simScore q v ≤ simScore q w ↔ cosineSim q v ≤ cosineSim q w := by
  have hQ0 : (0 : ℝ) < ((dotp q q : ℚ) : ℝ) := by exact_mod_cast hq
  have hA : (0 : ℝ) < ((dotp v v : ℚ) : ℝ) := by exact_mod_cast hv
  have hB : (0 : ℝ) < ((dotp w w : ℚ) : ℝ) := by exact_mod_cast hw
  have h := cosine_le_core ((dotp q v : ℚ) : ℝ) ((dotp q w : ℚ) : ℝ)
    ((dotp v v : ℚ) : ℝ) ((dotp w w : ℚ) : ℝ) ((dotp q q : ℚ) : ℝ) hA hB hQ0
  rw [← castSimScore q v hv, ← castSimScore q w hw, Rat.cast_le] at h
  unfold cosineSim
  exact h

lemma simScore_eq_iff (q v w : List ℚ) (hq : 0 < dotp q q) (hv : 0 < dotp v v)
    (hw : 0 < dotp w w) :
    simScore q v = simScore q w ↔ cosineSim q v = cosineSim q w := by
  rw [le_antisymm_iff, le_antisymm_iff, simScore_le_iff q v w hq hv hw,
    simScore_le_iff q w v hq hw hv]

lemma cosineSim_ne_of_simScore_ne (q v w : List ℚ) (hq : 0 < dotp q q)
    (hv : 0 < dotp v v) (hw : 0 < dotp w w) (h : simScore q v ≠ simScore q w) :
    cosineSim q v ≠ cosineSim q w :=
  fun hc => h ((simScore_eq_iff q v w hq hv hw).mpr hc)

/-! ### Structure of `topkIdx` -/

lemma topkIdx_length (s : List ℚ) (k : Nat) :
    (topkIdx s k).length = min k s.length := by
  unfold topkIdx
  rw [List.length_take, (List.perm_insertionSort _ _).length_eq, List.length_range]

lemma topkIdx_mem_lt (s : List ℚ) (k : Nat) :
    ∀ i ∈ topkIdx s k, i < s.length := by
  intro i hi
  unfold topkIdx at hi
  have h1 := List.mem_of_mem_take hi
  have h2 := (List.perm_insertionSort _ (List.range s.length)).subset h1
  exact List.mem_range.mp h2

lemma topkIdx_nodup (s : List ℚ) (k : Nat) : (topkIdx s k).Nodup := by
  unfold topkIdx
  have hnd : (List.insertionSort (fun i j => s.getD j 0 ≤ s.getD i 0)
      (List.range s.length)).Nodup :=
    (List.perm_insertionSort _ _).nodup_iff.mpr (List.nodup_range _)
  exact hnd.sublist (List.take_sublist _ _)

lemma topkIdx_sorted (s : List ℚ) (k : Nat) :
    (topkIdx s k).Pairwise (fun i j => s.getD j 0 ≤ s.getD i 0) := by
  unfold topkIdx
  haveI hT : IsTotal ℕ (fun i j => s.getD j 0 ≤ s.getD i 0) :=
    ⟨fun a b => le_total _ _⟩
  haveI hR : IsTrans ℕ (fun i j => s.getD j 0 ≤ s.getD i 0) :=
    ⟨fun a b c h1 h2 => le_trans h2 h1⟩
  have hs := List.sorted_insertionSort (fun i j => s.getD j 0 ≤ s.getD i 0)
    (List.range s.length)
  exact List.Pairwise.sublist (List.take_sublist _ _) hs

lemma topkIdx_selects (s : List ℚ) (k : Nat) :
    ∀ i ∈ topkIdx s k, ∀ j, j < s.length → j ∉ topkIdx s k →
      s.getD j 0 ≤ s.getD i 0 := by
  intro i hi j hj hnj
  haveI hT : IsTotal ℕ (fun i j => s.getD j 0 ≤ s.getD i 0) :=
    ⟨fun a b => le_total _ _⟩
  haveI hR : IsTrans ℕ (fun i j => s.getD j 0 ≤ s.getD i 0) :=
    ⟨fun a b c h1 h2 => le_trans h2 h1⟩
  have hsorted := List.sorted_insertionSort (fun i j => s.getD j 0 ≤ s.getD i 0)
    (List.range s.length)
  set L := List.insertionSort (fun i j => s.getD j 0 ≤ s.getD i 0)
    (List.range s.length) with hL
  have hjL : j ∈ L :=
    (List.perm_insertionSort _ _).mem_iff.mpr (List.mem_range.mpr hj)
  have hjsplit : j ∈ L.take k ++ L.drop k := by
    rw [List.take_append_drop]
    exact hjL
  have hjdrop : j ∈ L.drop k := by
    rcases List.mem_append.mp hjsplit with h | h
    · exact absurd h hnj
    · exact h
  have hsorted2 : (L.take k ++ L.drop k).Pairwise
      (fun i j => s.getD j 0 ≤ s.getD i 0) := by
    rw [List.take_append_drop]
    exact hsorted
  obtain ⟨-, -, hcross⟩ := List.pairwise_append.mp hsorted2
  exact hcross i hi j hjdrop

lemma getD_map_simScore (qe : List ℚ) (M : List (List ℚ)) (i : Nat)
    (hi : i < M.length) :
    (M.map (fun v => simScore qe v)).getD i 0 = simScore qe (M.getD i []) := by
  rw [List.getD_eq_getElem?_getD, List.getD_eq_getElem?_getD, List.getElem?_map,
    List.getElem?_eq_getElem hi]
  rfl

lemma getD_mem_of_lt (M : List (List ℚ)) (i : Nat) (h : i < M.length) :
    M.getD i [] ∈ M := by
  rw [List.getD_eq_getElem?_getD, List.getElem?_eq_getElem h]
  exact List.getElem_mem h

lemma nelement_ne_zero {M : List (List ℚ)} (hM : M ≠ [])
    (hrows : ∀ v ∈ M, 0 < dotp v v) : nelement M ≠ 0 := by
  rcases M with _ | ⟨v, tl⟩
  · exact absurd rfl hM
  · have hv := hrows v (List.mem_cons_self v tl)
    have hvne : v ≠ [] := by
      rintro rfl
      simp [dotp] at hv
    have hvlen : 0 < v.length := List.length_pos.mpr hvne
    unfold nelement
    simp only [List.map_cons, List.sum_cons]
    omega

/-- The retrieval result on a matrix with at least one element: the indices
are `topkIdx` of the per-row scores, mapped back to stripped corpus
entries, with exactly one embedding-service call for the query. -/
lemma get_relevant_context_eq (embed : String → List ℚ) (qs : String)
    (M : List (List ℚ)) (content : List String) (k : Nat)
    (h : nelement M ≠ 0) :
    get_relevant_context embed qs M content k =
      ((topkIdx (M.map (fun v => simScore (embed qs) v)) (min k M.length)).map
        (fun idx => pyStrip (content.getD idx "")), [qs]) := by
  unfold get_relevant_context
  rw [if_neg h]
  simp only [List.length_map]

/-- Reduction of `load_or_generate_embeddings` when the vault file exists:
the result is governed by the single cache-validity test of the source. -/
lemma load_eq_of_vault (md5fn : String → String)
    (embed : String → Option (List ℚ)) (fs : FS) (vault_content : List String)
    (bytes : String) (hvault : fs.vaultFile = some bytes) :
    load_or_generate_embeddings md5fn embed fs vault_content =
      if saved_checksum fs = md5fn bytes ∧ fs.embeddingsFile.isSome then
        Except.ok ⟨fs.embeddingsFile.getD [], md5fn bytes, [], []⟩
      else
        Except.ok ⟨vault_content.filterMap embed, md5fn bytes, vault_content,
          [WriteEvent.writeEmbeddings (vault_content.filterMap embed),
           WriteEvent.writeChecksum (md5fn bytes)]⟩ := by
  unfold load_or_generate_embeddings compute_md5
  rw [hvault]

/-! ### Claims -/

/-- C1 (cache hit correctness): when the freshly computed fingerprint of the
vault file equals the persisted fingerprint (a digest string, hence
whitespace-free) and the persisted embeddings file exists,
`load_or_generate_embeddings` returns exactly the persisted matrix paired
with the current fingerprint, makes no embedding-service call and performs
no writes. -/
theorem cache_hit_correctness (md5fn : String → String)
    (embed : String → Option (List ℚ)) (fs : FS) (vault_content : List String)
    (bytes fp : String) (m : List (List ℚ))
    (hvault : fs.vaultFile = some bytes)
    (hsum : fs.checksumFile = some fp)
    (htrim : pyStrip fp = fp)
    (hfp : md5fn bytes = fp)
    (hemb : fs.embeddingsFile = some m) :
    load_or_generate_embeddings md5fn embed fs vault_content =
      Except.ok ⟨m, fp, [], []⟩ := by
  have hcond : saved_checksum fs = md5fn bytes ∧ fs.embeddingsFile.isSome = true := by
    refine ⟨?_, by rw [hemb]; rfl⟩
    simp [saved_checksum, hsum, htrim, hfp]
  rw [load_eq_of_vault md5fn embed fs vault_content bytes hvault, if_pos hcond,
    hemb, hfp]
  rfl

theorem cache_hit_correctness_witness :
    pyStrip "d41d8cd98f00b204e9800998ecf8427e" = "d41d8cd98f00b204e9800998ecf8427e" ∧
    load_or_generate_embeddings (fun _ => "d41d8cd98f00b204e9800998ecf8427e")
      (fun _ => none)
      ⟨some "", some "d41d8cd98f00b204e9800998ecf8427e", some [[1]]⟩ ["line"] =
      Except.ok ⟨[[1]], "d41d8cd98f00b204e9800998ecf8427e", [], []⟩ :=
  ⟨rfl, cache_hit_correctness (fun _ => "d41d8cd98f00b204e9800998ecf8427e")
    (fun _ => none) ⟨some "", some "d41d8cd98f00b204e9800998ecf8427e", some [[1]]⟩
    ["line"] "" "d41d8cd98f00b204e9800998ecf8427e" [[1]] rfl rfl rfl rfl rfl⟩

/-- C2 (regeneration on cache miss): when the stored (stripped) fingerprint
differs from the current one or no persisted matrix exists,
`load_or_generate_embeddings` calls the embedding service exactly once per
corpus entry in corpus order, keeps exactly the entries with a usable
vector (`filterMap`), so the matrix can have fewer rows than the corpus,
and returns normally (no error). -/
theorem regeneration_on_miss (md5fn : String → String)
    (embed : String → Option (List ℚ)) (fs : FS) (vault_content : List String)
    (bytes : String)
    (hvault : fs.vaultFile = some bytes)
    (hmiss : saved_checksum fs ≠ md5fn bytes ∨ fs.embeddingsFile = none) :
    load_or_generate_embeddings md5fn embed fs vault_content =
      Except.ok ⟨vault_content.filterMap embed, md5fn bytes, vault_content,
        [WriteEvent.writeEmbeddings (vault_content.filterMap embed),
         WriteEvent.writeChecksum (md5fn bytes)]⟩ ∧
    (vault_content.filterMap embed).length ≤ vault_content.length := by
  have hcond : ¬(saved_checksum fs = md5fn bytes ∧
      fs.embeddingsFile.isSome = true) := by
    rcases hmiss with h | h
    · exact fun hc => h hc.1
    · intro hc
      rw [h] at hc
      simp at hc
  constructor
  · rw [load_eq_of_vault md5fn embed fs vault_content bytes hvault, if_neg hcond]
  · exact List.length_filterMap_le _ _

theorem regeneration_on_miss_witness :
    (saved_checksum ⟨some "v", none, none⟩ ≠ "abc" ∨
      (FS.mk (some "v") none none).embeddingsFile = none) ∧
    (load_or_generate_embeddings (fun _ => "abc")
        (fun t => if t = "bad" then none else some [1, 2])
        ⟨some "v", none, none⟩ ["x", "bad", "y"] =
      Except.ok ⟨["x", "bad", "y"].filterMap
          (fun t => if t = "bad" then none else some [1, 2]), "abc",
        ["x", "bad", "y"],
        [WriteEvent.writeEmbeddings (["x", "bad", "y"].filterMap
          (fun t => if t = "bad" then none else some [1, 2])),
         WriteEvent.writeChecksum "abc"]⟩ ∧
      (["x", "bad", "y"].filterMap
        (fun t => if t = "bad" then none else some [1, 2])).length ≤
        (["x", "bad", "y"] : List String).length) :=
  ⟨Or.inl (by decide),
   regeneration_on_miss (fun _ => "abc")
     (fun t => if t = "bad" then none else some [1, 2])
     ⟨some "v", none, none⟩ ["x", "bad", "y"] "v" rfl (Or.inl (by decide))⟩

/-- C5 (empty-matrix safety): on a matrix with zero elements,
`get_relevant_context` returns the empty context immediately, for every
query and every `k`, and sends no prompt to the embedding service. -/
theorem empty_matrix_safety (embed : String → List ℚ) (qs : String)
    (M : List (List ℚ)) (content : List String) (k : Nat)
    (hM : nelement M = 0) :
    get_relevant_context embed qs M content k = ([], []) := by
  unfold get_relevant_context
  rw [if_pos hM]

theorem empty_matrix_safety_witness :
    nelement [] = 0 ∧
    get_relevant_context (fun _ => []) "query" [] ["entry"] 0 = ([], []) :=
  ⟨rfl, empty_matrix_safety (fun _ => []) "query" [] ["entry"] 0 rfl⟩

/-- C6 (missing corpus file): when `vault.txt` does not exist the corpus
does load as empty, but start-up then calls `load_or_generate_embeddings`,
whose `compute_md5(VAULT_FILE)` opens the missing file and raises an
uncaught `IOError`: the pipeline fails instead of degrading to the empty
context the spec requires. -/
theorem missing_corpus_startup_fails (md5fn : String → String)
    (embed : String → Option (List ℚ)) (checksumFile : Option String)
    (embeddingsFile : Option (List (List ℚ))) :
    startup md5fn embed ⟨none, checksumFile, embeddingsFile⟩ =
      Except.error () := rfl

/-- C7 counterexample: a persisted matrix with zero rows together with a
matching fingerprint IS accepted as a valid cache by the code: the fast
path is taken (no service call, no write) and the empty matrix is returned,
contradicting the claim that a zero-row persisted matrix is not treated as
a valid cache. -/
theorem cache_validity_zero_row_counterexample :
    load_or_generate_embeddings (fun _ => "abc") (fun _ => some [1])
      ⟨some "vault", some "abc", some []⟩ ["entry"] =
      Except.ok ⟨[], "abc", [], []⟩ := rfl

/-- C7 as amended: `load_or_generate_embeddings` takes the cache-reuse fast
path (performs no writes) if and only if the stored stripped fingerprint
equals the freshly computed fingerprint AND the persisted embeddings file
is present — presence only; a persisted zero-row matrix is still treated as
a valid cache. -/
theorem cache_validity_presence_iff (md5fn : String → String)
    (embed : String → Option (List ℚ)) (fs : FS) (vault_content : List String)
    (bytes : String) (r : LoadResult)
    (hvault : fs.vaultFile = some bytes)
    (hr : load_or_generate_embeddings md5fn embed fs vault_content =
      Except.ok r) :
    r.writes = [] ↔
      (saved_checksum fs = md5fn bytes ∧ fs.embeddingsFile.isSome) := by
  rw [load_eq_of_vault md5fn embed fs vault_content bytes hvault] at hr
  by_cases hc : saved_checksum fs = md5fn bytes ∧ fs.embeddingsFile.isSome = true
  · rw [if_pos hc] at hr
    injection hr with h
    subst h
    simp [hc]
  · rw [if_neg hc] at hr
    injection hr with h
    subst h
    simp [hc]

theorem cache_validity_presence_iff_witness :
    load_or_generate_embeddings (fun _ => "abc") (fun _ => none)
      ⟨some "vault", some "abc", some [[1]]⟩ ["x"] =
      Except.ok ⟨[[1]], "abc", [], []⟩ ∧
    ((⟨[[1]], "abc", [], []⟩ : LoadResult).writes = [] ↔
      (saved_checksum ⟨some "vault", some "abc", some [[1]]⟩ = "abc" ∧
        (FS.mk (some "vault") (some "abc") (some [[1]])).embeddingsFile.isSome)) :=
  ⟨rfl, cache_validity_presence_iff (fun _ => "abc") (fun _ => none)
    ⟨some "vault", some "abc", some [[1]]⟩ ["x"] "vault" ⟨[[1]], "abc", [], []⟩
    rfl rfl⟩

/-- C8 (persistence write order): on the regeneration path the write trace
is exactly the matrix write followed by the fingerprint write — the matrix
always reaches durable storage strictly before the fingerprint. -/
theorem persistence_write_order (md5fn : String → String)
    (embed : String → Option (List ℚ)) (fs : FS) (vault_content : List String)
    (bytes : String)
    (hvault : fs.vaultFile = some bytes)
    (hmiss : ¬(saved_checksum fs = md5fn bytes ∧ fs.embeddingsFile.isSome)) :
    ∃ r : LoadResult,
      load_or_generate_embeddings md5fn embed fs vault_content =
        Except.ok r ∧
      r.writes = [WriteEvent.writeEmbeddings r.embeddings,
        WriteEvent.writeChecksum r.checksum] := by
  refine ⟨⟨vault_content.filterMap embed, md5fn bytes, vault_content,
    [WriteEvent.writeEmbeddings (vault_content.filterMap embed),
     WriteEvent.writeChecksum (md5fn bytes)]⟩, ?_, rfl⟩
  rw [load_eq_of_vault md5fn embed fs vault_content bytes hvault, if_neg hmiss]

theorem persistence_write_order_witness :
    ¬(saved_checksum ⟨some "v", none, none⟩ = "abc" ∧
      (FS.mk (some "v") none none).embeddingsFile.isSome) ∧
    ∃ r : LoadResult,
      load_or_generate_embeddings (fun _ => "abc") (fun _ => some [1])
        ⟨some "v", none, none⟩ ["x"] = Except.ok r ∧
      r.writes = [WriteEvent.writeEmbeddings r.embeddings,
        WriteEvent.writeChecksum r.checksum] :=
  ⟨by decide, persistence_write_order (fun _ => "abc") (fun _ => some [1])
    ⟨some "v", none, none⟩ ["x"] "v" rfl (by decide)⟩

/-- C9 (conversation-history invariant): both variants of `ollama_chat`
append exactly two entries to the history, in order a user-role message —
the context-augmented input, which is the raw input whenever no context was
retrieved — followed by an assistant-role message whose content falls back
to `"No response content."` when the model response has no content; the
earlier entries are preserved unchanged (the new history is the old one
with the two entries appended). -/
theorem conversation_history_append_two (embed : String → List ℚ)
    (chatResp : List Message → Option String)
    (user_input system_message : String) (ve : List (List ℚ))
    (vc : List String) (h : List Message) :
    ((ollama_chat embed chatResp user_input system_message ve vc h).history =
      h ++ [⟨"user", augmented_input "\n\n" embed user_input ve vc⟩,
        ⟨"assistant",
          (chatResp (⟨"system", system_message⟩ ::
            (h ++ [⟨"user", augmented_input "\n\n" embed user_input ve vc⟩]))).getD
            "No response content."⟩]) ∧
    ((ollama_chat_cli embed chatResp user_input system_message ve vc h).history =
      h ++ [⟨"user", augmented_input "\n" embed user_input ve vc⟩,
        ⟨"assistant",
          (chatResp (⟨"system", system_message⟩ ::
            (h ++ [⟨"user", augmented_input "\n" embed user_input ve vc⟩]))).getD
            "No response content."⟩]) ∧
    ((get_relevant_context embed user_input ve vc 3).1 = [] →
      augmented_input "\n\n" embed user_input ve vc = user_input ∧
      augmented_input "\n" embed user_input ve vc = user_input) := by
  refine ⟨?_, ?_, ?_⟩
  · simp only [ollama_chat, ollama_chat_core]
    cases chatResp (⟨"system", system_message⟩ ::
      (h ++ [⟨"user", augmented_input "\n\n" embed user_input ve vc⟩])) <;> simp
  · simp only [ollama_chat_cli, ollama_chat_core]
    cases chatResp (⟨"system", system_message⟩ ::
      (h ++ [⟨"user", augmented_input "\n" embed user_input ve vc⟩])) <;> simp
  · intro hrc
    constructor <;> simp [augmented_input, hrc]

/-- C10 (empty-input rejection): a `/chat` request whose JSON body has a
missing or empty `"user_input"` field gets HTTP status 400 with no reply
content, leaves the conversation history unchanged and calls neither the
embedding service nor the chat model. -/
theorem empty_input_rejection (embed : String → List ℚ)
    (chatResp : List Message → Option String) (system_message : String)
    (ve : List (List ℚ)) (vc : List String) (h : List Message)
    (userInputField : Option String)
    (hfield : userInputField = none ∨ userInputField = some "") :
    chat_endpoint embed chatResp system_message ve vc h userInputField =
      ⟨400, none, h, [], []⟩ := by
  rcases hfield with rfl | rfl <;> rfl

theorem empty_input_rejection_witness :
    ((some "" : Option String) = none ∨ (some "" : Option String) = some "") ∧
    chat_endpoint (fun _ => []) (fun _ => none) "sys" [] [] [] (some "") =
      ⟨400, none, [], [], []⟩ :=
  ⟨Or.inr rfl, empty_input_rejection (fun _ => []) (fun _ => none) "sys" [] [] []
    (some "") (Or.inr rfl)⟩

/-- When `k` is at least the number of scores, `topkIdx` is a permutation of
all the indices. -/
lemma topkIdx_perm_of_le (s : List ℚ) (k : Nat) (hk : s.length ≤ k) :
    (topkIdx s k).Perm (List.range s.length) := by
  unfold topkIdx
  have hLlen : (List.insertionSort (fun i j => s.getD j 0 ≤ s.getD i 0)
      (List.range s.length)).length = s.length := by
    rw [(List.perm_insertionSort _ _).length_eq, List.length_range]
  rw [List.take_of_length_le (le_trans (le_of_eq hLlen) hk)]
  exact List.perm_insertionSort _ _

/-- C3 (top-K ordering): for a nonzero query embedding and a non-empty
matrix of nonzero rows whose cosine similarities to the query are pairwise
distinct, `get_relevant_context` returns the stripped corpus entries of the
`min k n` rows of highest cosine similarity, in strictly descending
similarity order; every selected row beats every non-selected row.  The
tie-breaking consistency half of the claim is definitional here: the model
is a pure function, so identical inputs give identical results. -/
theorem topk_ordering (embed : String → List ℚ) (qs : String)
    (M : List (List ℚ)) (content : List String) (k : Nat)
    (hM : M ≠ [])
    (hq : 0 < dotp (embed qs) (embed qs))
    (hrows : ∀ v ∈ M, 0 < dotp v v)
    (hlen : M.length ≤ content.length)
    (hdist : ∀ i j, i < M.length → j < M.length → i ≠ j →
      cosineSim (embed qs) (M.getD i []) ≠ cosineSim (embed qs) (M.getD j [])) :
    ∃ idxs : List Nat,
      (get_relevant_context embed qs M content k).1 =
        idxs.map (fun i => pyStrip (content.getD i "")) ∧
      idxs.length = min k M.length ∧
      idxs.Nodup ∧
      (∀ i ∈ idxs, i < M.length) ∧
      idxs.Pairwise (fun i j =>
        cosineSim (embed qs) (M.getD j []) < cosineSim (embed qs) (M.getD i [])) ∧
      (∀ i ∈ idxs, ∀ j, j < M.length → j ∉ idxs →
        cosineSim (embed qs) (M.getD j []) < cosineSim (embed qs) (M.getD i [])) := by
  have hne : nelement M ≠ 0 := nelement_ne_zero hM hrows
  have hslen : (M.map (fun v => simScore (embed qs) v)).length = M.length :=
    List.length_map _ _
  have hmemlt : ∀ i ∈ topkIdx (M.map (fun v => simScore (embed qs) v))
      (min k M.length), i < M.length := by
    intro i hi
    have h2 := topkIdx_mem_lt _ _ i hi
    rwa [hslen] at h2
  have hstrict : ∀ a b : Nat, a < M.length → b < M.length → a ≠ b →
      (M.map (fun v => simScore (embed qs) v)).getD b 0 ≤
        (M.map (fun v => simScore (embed qs) v)).getD a 0 →
      cosineSim (embed qs) (M.getD b []) < cosineSim (embed qs) (M.getD a []) := by
    intro a b ha hb hab hle
    rw [getD_map_simScore (embed qs) M b hb, getD_map_simScore (embed qs) M a ha]
      at hle
    have hcos := (simScore_le_iff (embed qs) (M.getD b []) (M.getD a []) hq
      (hrows _ (getD_mem_of_lt M b hb)) (hrows _ (getD_mem_of_lt M a ha))).mp hle
    exact lt_of_le_of_ne hcos (hdist b a hb ha (Ne.symm hab))
  refine ⟨topkIdx (M.map (fun v => simScore (embed qs) v)) (min k M.length),
    ?_, ?_, topkIdx_nodup _ _, hmemlt, ?_, ?_⟩
  · rw [get_relevant_context_eq embed qs M content k hne]
  · rw [topkIdx_length, hslen]
    omega
  · have hp := topkIdx_sorted (M.map (fun v => simScore (embed qs) v))
      (min k M.length)
    have hnd := topkIdx_nodup (M.map (fun v => simScore (embed qs) v))
      (min k M.length)
    refine List.Pairwise.imp_of_mem ?_ (hp.and hnd)
    intro a b ha hb hc
    exact hstrict a b (hmemlt a ha) (hmemlt b hb) hc.2 hc.1
  · intro i hi j hj hnj
    have hsel := topkIdx_selects (M.map (fun v => simScore (embed qs) v))
      (min k M.length) i hi j (by rwa [hslen]) hnj
    exact hstrict i j (hmemlt i hi) hj (fun hEq => hnj (hEq ▸ hi)) hsel

theorem topk_ordering_witness :
    (0 : ℚ) < dotp [3, 4] [3, 4] ∧
    ∃ idxs : List Nat,
      (get_relevant_context (fun _ => [3, 4]) "q" [[1, 0], [0, 1], [1, 1]]
        ["a", "b", "c"] 2).1 =
        idxs.map (fun i => pyStrip (["a", "b", "c"].getD i "")) ∧
      idxs.length = min 2 ([[1, 0], [0, 1], [1, 1]] : List (List ℚ)).length ∧
      idxs.Nodup ∧
      (∀ i ∈ idxs, i < ([[1, 0], [0, 1], [1, 1]] : List (List ℚ)).length) ∧
      idxs.Pairwise (fun i j =>
        cosineSim [3, 4] ([[1, 0], [0, 1], [1, 1]].getD j []) <
          cosineSim [3, 4] ([[1, 0], [0, 1], [1, 1]].getD i [])) ∧
      (∀ i ∈ idxs, ∀ j, j < ([[1, 0], [0, 1], [1, 1]] : List (List ℚ)).length →
        j ∉ idxs →
        cosineSim [3, 4] ([[1, 0], [0, 1], [1, 1]].getD j []) <
          cosineSim [3, 4] ([[1, 0], [0, 1], [1, 1]].getD i [])) :=
  ⟨by norm_num [dotp], topk_ordering (fun _ => [3, 4]) "q" [[1, 0], [0, 1], [1, 1]]
    ["a", "b", "c"] 2 (by simp) (by norm_num [dotp])
    (by
      intro v hv
      fin_cases hv <;> norm_num [dotp])
    (by simp)
    (by
      intro i j hi hj hne2
      have hi3 : i < 3 := by simpa using hi
      have hj3 : j < 3 := by simpa using hj
      have hvi : 0 < dotp (([[1, 0], [0, 1], [1, 1]] : List (List ℚ)).getD i [])
          (([[1, 0], [0, 1], [1, 1]] : List (List ℚ)).getD i []) := by
        interval_cases i <;> norm_num [dotp]
      have hvj : 0 < dotp (([[1, 0], [0, 1], [1, 1]] : List (List ℚ)).getD j [])
          (([[1, 0], [0, 1], [1, 1]] : List (List ℚ)).getD j []) := by
        interval_cases j <;> norm_num [dotp]
      refine cosineSim_ne_of_simScore_ne _ _ _ (by norm_num [dotp]) hvi hvj ?_
      interval_cases i <;> interval_cases j <;>
        first
          | exact absurd rfl hne2
          | norm_num [simScore, dotp])⟩

/-- C4 (k clamping): the retrieval result always has `min k n` entries for a
matrix with `n` (nonzero) rows, and when `k > n` it consists of all `n`
stripped corpus entries, each exactly once (a permutation of all row
indices), ordered by descending cosine similarity to the query; no error is
possible (the model is a total function). -/
theorem k_clamping (embed : String → List ℚ) (qs : String)
    (M : List (List ℚ)) (content : List String) (k : Nat)
    (hM : M ≠ [])
    (hq : 0 < dotp (embed qs) (embed qs))
    (hrows : ∀ v ∈ M, 0 < dotp v v)
    (hlen : M.length ≤ content.length)
    (hk : M.length < k) :
    (∀ k2 : Nat, ((get_relevant_context embed qs M content k2).1).length =
      min k2 M.length) ∧
    ∃ idxs : List Nat,
      idxs.Perm (List.range M.length) ∧
      (get_relevant_context embed qs M content k).1 =
        idxs.map (fun i => pyStrip (content.getD i "")) ∧
      idxs.Pairwise (fun i j =>
        cosineSim (embed qs) (M.getD j []) ≤ cosineSim (embed qs) (M.getD i [])) := by
  have hne : nelement M ≠ 0 := nelement_ne_zero hM hrows
  have hslen : (M.map (fun v => simScore (embed qs) v)).length = M.length :=
    List.length_map _ _
  have hmemlt : ∀ i ∈ topkIdx (M.map (fun v => simScore (embed qs) v))
      (min k M.length), i < M.length := by
    intro i hi
    have h2 := topkIdx_mem_lt _ _ i hi
    rwa [hslen] at h2
  constructor
  · intro k2
    simp only [get_relevant_context_eq embed qs M content k2 hne,
      List.length_map, topkIdx_length]
    omega
  · refine ⟨topkIdx (M.map (fun v => simScore (embed qs) v)) (min k M.length),
      ?_, ?_, ?_⟩
    · have hperm := topkIdx_perm_of_le (M.map (fun v => simScore (embed qs) v))
        (min k M.length) (by rw [hslen]; omega)
      rwa [hslen] at hperm
    · rw [get_relevant_context_eq embed qs M content k hne]
    · have hp := topkIdx_sorted (M.map (fun v => simScore (embed qs) v))
        (min k M.length)
      refine List.Pairwise.imp_of_mem ?_ hp
      intro a b ha hb hle
      rw [getD_map_simScore (embed qs) M b (hmemlt b hb),
        getD_map_simScore (embed qs) M a (hmemlt a ha)] at hle
      exact (simScore_le_iff (embed qs) (M.getD b []) (M.getD a []) hq
        (hrows _ (getD_mem_of_lt M b (hmemlt b hb)))
        (hrows _ (getD_mem_of_lt M a (hmemlt a ha)))).mp hle

theorem k_clamping_witness :
    ([[1, 0], [0, 1]] : List (List ℚ)).length < 5 ∧
    ((∀ k2 : Nat, ((get_relevant_context (fun _ => [3, 4]) "q" [[1, 0], [0, 1]]
        ["a", "b"] k2).1).length =
        min k2 ([[1, 0], [0, 1]] : List (List ℚ)).length) ∧
     ∃ idxs : List Nat,
       idxs.Perm (List.range ([[1, 0], [0, 1]] : List (List ℚ)).length) ∧
       (get_relevant_context (fun _ => [3, 4]) "q" [[1, 0], [0, 1]]
         ["a", "b"] 5).1 = idxs.map (fun i => pyStrip (["a", "b"].getD i "")) ∧
       idxs.Pairwise (fun i j =>
         cosineSim [3, 4] ([[1, 0], [0, 1]].getD j []) ≤
           cosineSim [3, 4] ([[1, 0], [0, 1]].getD i []))) :=
  ⟨by decide, k_clamping (fun _ => [3, 4]) "q" [[1, 0], [0, 1]] ["a", "b"] 5
    (by simp) (by norm_num [dotp])
    (by
      intro v hv
      fin_cases hv <;> norm_num [dotp])
    (by simp) (by decide)⟩
